import Mathlib

/-!
Verification of the Harbor & Vale "King County Survival Guide" demo backend
(`src/app.py`).  The file shallowly embeds the core logic of the program:
the AI-triage keyword classifier, the service-catalog query engine with its
synonym expansion and conjunctive filters, the sliding-window rate limiter,
the capacity-bounded event log with its analytics summary, and the CSV row
normalization, and proves the specification's properties about them.

Python strings are modelled as Lean `String` (a list of characters);
Python `float` timestamps are modelled as `ℚ`; Python dicts that preserve
insertion order are modelled as association lists.
-/

set_option maxHeartbeats 1000000

/-! ## String utilities modelling Python `str` operations -/

/-- ASCII whitespace, as recognised by Python's `str.strip` / `str.split`
on the data appearing in this program. -/
def isWs (c : Char) : Bool :=
  c = ' ' || c = '\t' || c = '\n' || c = '\r' || c = Char.ofNat 11 || c = Char.ofNat 12

/-- Python `str.strip()` on a character list: drop whitespace from both ends. -/
def stripL (l : List Char) : List Char :=
  ((l.dropWhile isWs).reverse.dropWhile isWs).reverse

/-- Python `str.strip()`. -/
def stripStr (s : String) : String := ⟨stripL s.data⟩

/-- Python `str.lower()` (ASCII case mapping, which covers this program's data). -/
def lowerStr (s : String) : String := ⟨s.data.map Char.toLower⟩

/-- Tests whether the first list is an initial segment of the second. -/
def prefixB : List Char → List Char → Bool
  | [], _ => true
  | _ :: _, [] => false
  | a :: as, b :: bs => a == b && prefixB as bs

/-- Tests whether `needle` occurs contiguously inside `hay`. -/
def infixB (needle : List Char) : List Char → Bool
  | [] => prefixB needle []
  | b :: bs => prefixB needle (b :: bs) || infixB needle bs

/-- Python `needle in hay` for strings. -/
def strIn (needle hay : String) : Bool := infixB needle.data hay.data

/-! ## AI triage classifier (`ai_triage`, src/app.py lines 394-412) -/

def EMERGENCY_KWS : List String :=
  ["overdose", "od", "not breathing", "unconscious", "seizure", "violence", "in danger", "threat"]

def CRISIS_KWS : List String :=
  ["suicide", "kill myself", "end my life", "self harm", "self-harm"]

def MEDICAL_KWS : List String :=
  ["medical", "doctor", "clinic", "nurse", "health", "sick", "injury", "hurt", "wound"]

def HOUSING_KWS : List String :=
  ["housing", "shelter", "bed", "room", "sleep", "unhoused", "tent"]

def ID_KWS : List String :=
  ["id", "ids", "identification", "license", "dmv", "birth certificate", "documents"]

def FOOD_KWS : List String :=
  ["food", "meal", "meals", "groceries", "food bank", "hungry"]

def DETOX_KWS : List String :=
  ["detox", "withdrawal", "sobering", "sobering center", "fentanyl", "alcohol", "heroin"]

def MENTAL_KWS : List String :=
  ["mental", "anxiety", "depression", "counseling", "therapy", "psychiatry"]

/-- The triage classifier: lowercase and strip the input, then run the fixed
cascade of keyword-group substring checks, returning `(category, recommendation)`. -/
def ai_triage (user_input : String) : String × String :=
  let text := stripStr (lowerStr user_input)
  if EMERGENCY_KWS.any (fun k => strIn k text) then
    ("emergency", "Emergency: call 911")
  else if CRISIS_KWS.any (fun k => strIn k text) then
    ("mental_crisis", "Crisis: call/text 988 (Suicide & Crisis Lifeline)")
  else if MEDICAL_KWS.any (fun k => strIn k text) then
    ("medical", "Visit Harbor Free Clinic")
  else if HOUSING_KWS.any (fun k => strIn k text) then
    ("housing", "Apply to Lake Union Women's Shelter")
  else if ID_KWS.any (fun k => strIn k text) then
    ("id", "Seattle ID Assistance Center")
  else if FOOD_KWS.any (fun k => strIn k text) then
    ("food", "Pike Place Food Bank")
  else if DETOX_KWS.any (fun k => strIn k text) then
    ("detox", "Call First Step Detox for intake")
  else if MENTAL_KWS.any (fun k => strIn k text) then
    ("mental_health", "Start at Harbor Free Clinic for referral")
  else
    ("general", "Call 211 for local resources")

/-- The ordered keyword groups with their categories, in the priority order
stated by the specification. -/
def TRIAGE_GROUPS : List (List String × String) :=
  [(EMERGENCY_KWS, "emergency"), (CRISIS_KWS, "mental_crisis"), (MEDICAL_KWS, "medical"),
   (HOUSING_KWS, "housing"), (ID_KWS, "id"), (FOOD_KWS, "food"), (DETOX_KWS, "detox"),
   (MENTAL_KWS, "mental_health")]

/-- First-match evaluation of keyword groups over a text, defaulting to "general". -/
def firstMatchCat (text : String) : List (List String × String) → String
  | [] => "general"
  | (kws, cat) :: rest =>
    if kws.any (fun k => strIn k text) then cat else firstMatchCat text rest

/-- The classifier as the specification words it: the category of the first
group any of whose keywords occurs as a substring of the lowercased message. -/
def triageSpecCat (message : String) : String :=
  firstMatchCat (lowerStr message) TRIAGE_GROUPS

/-- A keyword is strip-insensitive when it is nonempty and starts and ends with
a non-whitespace character. -/
def goodKw (k : String) : Bool :=
  !(k.data.isEmpty) && !(isWs k.data.headI) && !(isWs k.data.reverse.headI)

/-! ## Synonym expansion (`SYNONYMS` and `_expand`, src/app.py lines 235-249) -/

def SYNONYMS : List (String × List String) :=
  [("id", ["id", "ids", "identification", "license", "dmv", "birth certificate"]),
   ("showers", ["shower", "showers", "hygiene", "laundry"]),
   ("food", ["food", "meal", "meals", "groceries", "food bank", "soup"]),
   ("transport", ["transport", "transportation", "bus", "orca", "transit", "ticket", "pass"]),
   ("detox", ["detox", "withdrawal", "sobering", "sobering center"]),
   ("mental", ["mental", "counseling", "therapy", "psychiatry", "behavioral"])]

/-- A synonym group fires when its key or any of its synonyms occurs as a
substring of the processed query. -/
def groupTriggered (g : String × List String) (q : String) : Bool :=
  strIn g.1 q || g.2.any (fun s => strIn s q)

/-- Synonym expansion (`_expand`): strip and lowercase the query; an empty
result expands to the empty set, otherwise to the literal query plus the
synonyms of every triggered group. -/
def _expand (q : Option String) : Finset String :=
  let ql := lowerStr (stripStr (q.getD ""))
  if ql = "" then ∅
  else SYNONYMS.foldl
    (fun acc g => if groupTriggered g ql then acc ∪ g.2.toFinset else acc) {ql}

/-- The union of the synonym sets of all triggered groups, as the
specification words it. -/
def triggeredUnion (ql : String) : List (String × List String) → Finset String
  | [] => ∅
  | g :: rest => (if groupTriggered g ql then g.2.toFinset else ∅) ∪ triggeredUnion ql rest

/-! ## Service records and the catalog query engine
(`fetch_services`, src/app.py lines 251-278) -/

structure Item where
  name : String
  type_ : String
  neighborhood : String
  address : String
  phone : String
  website : String
  email : String
  hours : String
  notes : String
  walk_in : Bool
  appt_required : Bool
  van_access : Bool
  beds : Int
  lat : ℚ
  lng : ℚ
  age_min : Int
  age_max : Int
  lgbtq_friendly : Bool
  languages : List String
  disability_access : List String
  tribal_friendly : Bool
  tribe_run : Bool
  services : List String
  slug : String
  minor_note : Bool
deriving DecidableEq, Repr

/-- Digit-string value, used to model Python `int(...)` on decimal literals. -/
def digitsVal : List Char → Option ℕ
  | [] => none
  | ds =>
    if ds.all (fun c => c.isDigit) then
      some (ds.foldl (fun n c => 10 * n + (c.toNat - 48)) 0)
    else none

/-- Python `int(s)` on a string: strip whitespace, optional sign, decimal
digits; any other shape raises (modelled as `none`). -/
def parseIntPy (s : String) : Option Int :=
  match stripL s.data with
  | '+' :: ds => (digitsVal ds).map (fun n => (n : Int))
  | '-' :: ds => (digitsVal ds).map (fun n => -(n : Int))
  | ds => (digitsVal ds).map (fun n => (n : Int))

def kindMismatch (kind : Option String) (it : Item) : Bool :=
  match kind with
  | none => false
  | some k => !(k == "") && !(lowerStr it.type_ == lowerStr k)

def hoodMismatch (neighborhood : Option String) (it : Item) : Bool :=
  match neighborhood with
  | none => false
  | some h => !(h == "") && !(lowerStr it.neighborhood == lowerStr h)

def wiMismatch (walk_in_only : Option Bool) (it : Item) : Bool :=
  walk_in_only == some true && !it.walk_in

/-- The age-filter stage: `none` means the record is excluded; otherwise the
record is returned, annotated with `_minor_note` when the age is below 18.
A missing, empty or non-numeric age value leaves the record untouched. -/
def ageStage (age : Option String) (it : Item) : Option Item :=
  match age with
  | none => some it
  | some s =>
    if s = "" then some it
    else
      match parseIntPy s with
      | none => some it
      | some a =>
        if it.age_min ≤ a ∧ (it.age_max = 0 ∨ a ≤ it.age_max) then
          some (if a < 18 then { it with minor_note := true } else it)
        else none

def lgbtqMismatch (lgbtq : Option Bool) (it : Item) : Bool :=
  lgbtq == some true && !it.lgbtq_friendly

def tribalMismatch (tribal : Option Bool) (it : Item) : Bool :=
  tribal == some true && !it.tribal_friendly

def tribeRunMismatch (tribe_run : Option Bool) (it : Item) : Bool :=
  tribe_run == some true && !it.tribe_run

def langMismatch (language : Option String) (it : Item) : Bool :=
  match language with
  | none => false
  | some lang => !(lang == "") && !((it.languages.map lowerStr).contains (lowerStr lang))

def disMismatch (disability : Option String) (it : Item) : Bool :=
  match disability with
  | none => false
  | some d => !(d == "") && !((it.disability_access.map lowerStr).contains (lowerStr d))

/-- The lowercased haystack a free-text term is matched against: the
space-joined name, notes, type, neighborhood and service tags. -/
def hayOf (it : Item) : String :=
  lowerStr (String.intercalate " " ([it.name, it.notes, it.type_, it.neighborhood] ++ it.services))

def textMiss (qterms : Finset String) (it : Item) : Bool :=
  decide qterms.Nonempty && !(decide (∃ t ∈ qterms, strIn t (hayOf it) = true))

/-- One record's pass through the `ok` filter chain, in the program's check
order, returning the verdict together with the (possibly annotated) record. -/
def okState (qterms : Finset String) (kind neighborhood : Option String)
    (walk_in_only : Option Bool) (age : Option String) (lgbtq : Option Bool)
    (language disability : Option String) (tribal tribe_run : Option Bool)
    (it : Item) : Bool × Item :=
  if kindMismatch kind it then (false, it)
  else if hoodMismatch neighborhood it then (false, it)
  else if wiMismatch walk_in_only it then (false, it)
  else
    match ageStage age it with
    | none => (false, it)
    | some it2 =>
      if lgbtqMismatch lgbtq it2 then (false, it2)
      else if tribalMismatch tribal it2 then (false, it2)
      else if tribeRunMismatch tribe_run it2 then (false, it2)
      else if langMismatch language it2 then (false, it2)
      else if disMismatch disability it2 then (false, it2)
      else if textMiss qterms it2 then (false, it2)
      else (true, it2)

/-- The query engine with its state effect: returns the filtered results and
the catalog as left after the query (records share the annotation mutation). -/
def fetchState (q kind neighborhood : Option String) (walk_in_only : Option Bool)
    (age : Option String) (lgbtq : Option Bool) (language disability : Option String)
    (tribal tribe_run : Option Bool) (items : List Item) : List Item × List Item :=
  let qterms := _expand q
  let stepped := items.map
    (okState qterms kind neighborhood walk_in_only age lgbtq language disability tribal tribe_run)
  ((stepped.filter (·.1)).map (·.2), stepped.map (·.2))

def fetch_services (q kind neighborhood : Option String) (walk_in_only : Option Bool)
    (age : Option String) (lgbtq : Option Bool) (language disability : Option String)
    (tribal tribe_run : Option Bool) (items : List Item) : List Item :=
  (fetchState q kind neighborhood walk_in_only age lgbtq language disability
    tribal tribe_run items).1

/-- Forgetting the ephemeral-looking `_minor_note` annotation. -/
def clearNote (it : Item) : Item := { it with minor_note := false }

/-! ## Specification-side filter predicates for the query engine -/

def kindOk (k : String) (it : Item) : Prop := lowerStr it.type_ = lowerStr k

def hoodOk (h : String) (it : Item) : Prop := lowerStr it.neighborhood = lowerStr h

def ageOkAt (a : Int) (it : Item) : Prop :=
  it.age_min ≤ a ∧ (it.age_max = 0 ∨ a ≤ it.age_max)

instance (a : Int) (it : Item) : Decidable (ageOkAt a it) := by
  unfold ageOkAt; infer_instance

def langOk (lang : String) (it : Item) : Prop := lowerStr lang ∈ it.languages.map lowerStr

def disOk (d : String) (it : Item) : Prop := lowerStr d ∈ it.disability_access.map lowerStr

def textOk (qterms : Finset String) (it : Item) : Prop :=
  ∃ t ∈ qterms, strIn t (hayOf it) = true

/-- A concrete catalog record used to instantiate the query-engine theorems. -/
def itemA : Item :=
  { name := "Harbor Free Clinic", type_ := "Clinic", neighborhood := "Capitol Hill",
    address := "", phone := "", website := "", email := "", hours := "",
    notes := "naloxone", walk_in := true, appt_required := false, van_access := false,
    beds := 0, lat := 0, lng := 0, age_min := 0, age_max := 0, lgbtq_friendly := true,
    languages := ["English"], disability_access := ["Wheelchair"], tribal_friendly := true,
    tribe_run := false, services := ["medical"], slug := "harbor-free-clinic",
    minor_note := false }

/-- A second concrete catalog record. -/
def itemB : Item :=
  { name := "Aurora Day Center", type_ := "Day Center", neighborhood := "North Seattle",
    address := "", phone := "", website := "", email := "", hours := "",
    notes := "", walk_in := true, appt_required := false, van_access := false,
    beds := 0, lat := 0, lng := 0, age_min := 0, age_max := 0, lgbtq_friendly := true,
    languages := ["English"], disability_access := [], tribal_friendly := false,
    tribe_run := false, services := ["showers"], slug := "aurora-day-center",
    minor_note := false }

/-- The verdict of the filter chain after the age stage, as one conjunction. -/
def okTail (qterms : Finset String) (lg : Option Bool) (lang dis : Option String)
    (tr trr : Option Bool) (it : Item) : Bool :=
  !(lgbtqMismatch lg it) && !(tribalMismatch tr it) && !(tribeRunMismatch trr it)
    && !(langMismatch lang it) && !(disMismatch dis it) && !(textMiss qterms it)

/-! ## The `_minor_note` annotation effect of a query (C9) -/

/-- The exact condition under which a query sets the `_minor_note` annotation on
a record: the record passes the type, neighborhood and walk-in checks, the age
argument parses to a value below 18, and the record's age bounds admit it. -/
def noteTrigger (kind neighborhood : Option String) (wi : Option Bool)
    (age : Option String) (it : Item) : Bool :=
  !(kindMismatch kind it) && !(hoodMismatch neighborhood it) && !(wiMismatch wi it)
    && (match age with
        | none => false
        | some s =>
          if s = "" then false
          else
            match parseIntPy s with
            | none => false
            | some a => decide (ageOkAt a it) && decide (a < 18))

/-! ## Sliding-window rate limiter (`check_rate`, src/app.py lines 47-56) -/

/-- One call to `check_rate` acting on one client's bucket at time `now`: prune
stale timestamps from the front, deny if the bucket is full, otherwise record
the call's timestamp and admit. -/
def rateStep (max_hits : ℕ) (window_sec : ℚ) (bucket : List ℚ) (now : ℚ) : Bool × List ℚ :=
  let b := bucket.dropWhile (fun t => decide (now - t > window_sec))
  if max_hits ≤ b.length then (false, b) else (true, b ++ [now])

/-- A sequence of `check_rate` calls at the given times, returning the verdicts. -/
def runRate (m : ℕ) (w : ℚ) : List ℚ → List ℚ → List Bool
  | _, [] => []
  | b, t :: ts =>
    let s := rateStep m w b t
    s.1 :: runRate m w s.2 ts

/-! ## Event log (`ALLOWED_EVENT_TYPES`, `log_event`, `EVENTS`,
src/app.py lines 40 and 424-436) -/

def ALLOWED_EVENT_TYPES : List String :=
  ["call_click", "website_click", "directions_click", "copy_address", "search", "filter",
   "triage", "intake_submitted", "intake_resolved", "login", "guided_start",
   "guided_complete", "lang_select", "contrast_toggle", "quick_exit", "report",
   "partner_visit", "profile_save", "goal_add", "upload"]

/-- The capacity bound of the `EVENTS` deque (`maxlen=5000`). -/
def EVENTS_CAP : ℕ := 5000

structure Event where
  t : ℚ
  ts : String
  type_ : String
  name : String
  meta : List (String × String)
deriving DecidableEq, Repr

/-- The stored form of an event: the subject name is truncated to 120 characters. -/
def mkEvent (e : Event) : Event := { e with name := ⟨e.name.data.take 120⟩ }

/-- The `log_event` operation: drop the event silently unless its type is in the allow-list;
otherwise prepend it, evicting from the old end beyond the capacity bound.
The newest event sits at the head of the list. -/
def log_event (s : List Event) (e : Event) : List Event :=
  if e.type_ ∈ ALLOWED_EVENT_TYPES then (mkEvent e :: s).take EVENTS_CAP else s

/-- The event store reached from empty by a sequence of `log_event` calls. -/
def runLog (es : List Event) : List Event := es.foldl log_event []

/-- An allowed concrete event used to instantiate the event-log theorems. -/
def evSearch : Event := { t := 0, ts := "", type_ := "search", name := "subject", meta := [] }

/-- An event with a type outside the allow-list. -/
def evBad : Event := { t := 0, ts := "", type_ := "hack", name := "", meta := [] }

/-! ## Analytics summary (`analytics_summary`, src/app.py lines 438-445) -/

structure Intake where
  id : Int
  ts : String
  name : String
  need : String
  details : String
  status : String
deriving DecidableEq, Repr

structure Report where
  ts : String
  service : String
  slug : String
  category : String
  suggestion : String
  email : String
deriving DecidableEq, Repr

/-- The click event types counted into `top_services`. -/
def CLICK_TYPES : List String :=
  ["call_click", "website_click", "directions_click", "copy_address"]

/-- One `counts[k] = counts.get(k, 0) + 1` update of an insertion-ordered dict. -/
def bump : List (String × ℕ) → String → List (String × ℕ)
  | [], k => [(k, 1)]
  | (k', v) :: rest, k =>
    if k' = k then (k', v + 1) :: rest else (k', v) :: bump rest k

/-- Python `dict.get(k, 0)` on an insertion-ordered dict. -/
def getCount : List (String × ℕ) → String → ℕ
  | [], _ => 0
  | (k', v) :: rest, k => if k' = k then v else getCount rest k

/-- The per-type event counts, scanning the event store in order. -/
def countsDict (es : List Event) : List (String × ℕ) :=
  es.foldl (fun d e => bump d e.type_) []

/-- The per-subject counts over click events, scanning the event store in order. -/
def clicksDict (es : List Event) : List (String × ℕ) :=
  es.foldl (fun d e => if e.type_ ∈ CLICK_TYPES then bump d e.name else d) []

/-- Stable insertion of an entry into a count-descending list: the entry goes
after every earlier entry with a strictly larger or equal count position kept,
exactly as Python's stable `sorted(..., key=lambda x: -x[1])` orders ties. -/
def insertDesc (x : String × ℕ) : List (String × ℕ) → List (String × ℕ)
  | [] => [x]
  | y :: ys => if y.2 ≤ x.2 then x :: y :: ys else y :: insertDesc x ys

/-- Stable sort by descending count (insertion sort, a functional model of
Python's stable `sorted` with key `-count`). -/
def sortDesc : List (String × ℕ) → List (String × ℕ)
  | [] => []
  | x :: xs => insertDesc x (sortDesc xs)

structure Summary where
  counts : List (String × ℕ)
  top_services : List (String × ℕ)
  events : ℕ
  intakes : ℕ
  reports : ℕ
deriving DecidableEq, Repr

/-- The `analytics_summary` operation: per-type counts, the top-ten click subjects, and the
sizes of the three stores. -/
def analytics_summary (events : List Event) (intakes : List Intake)
    (reports : List Report) : Summary :=
  { counts := countsDict events,
    top_services := (sortDesc (clicksDict events)).take 10,
    events := events.length,
    intakes := intakes.length,
    reports := reports.length }

def isClick (e : Event) : Bool := decide (e.type_ ∈ CLICK_TYPES)

/-- The subject names of the click events, in scan order. -/
def clickNames (es : List Event) : List String := (es.filter isClick).map Event.name

/-- First-occurrence deduplication: the order in which an insertion-ordered
dict first encounters each key. -/
def dedupFirst : List String → List String
  | [] => []
  | n :: ns => n :: dedupFirst (ns.filter (fun x => !(x == n)))
termination_by l => l.length
decreasing_by
  simp only [List.length_cons]
  exact Nat.lt_succ_of_le (List.length_filter_le _ _)

/-- A concrete click event used to instantiate the analytics theorem. -/
def evClickA : Event :=
  { t := 0, ts := "", type_ := "call_click", name := "A", meta := [] }

/-! ## CSV row normalization (`slugify`, `_parse_bool`, `load_csv_bytes`,
src/app.py lines 82-88 and 97-137) -/

/-- Python `str.replace(pat, rep)`: leftmost non-overlapping replacement,
written with a step-count bounded by the list length so that it evaluates by
kernel reduction; the initial budget always suffices, since every step consumes
at least one character.  An empty pattern leaves the list unchanged (never used
by the program). -/
def replaceFuel (pat rep : List Char) : ℕ → List Char → List Char
  | _, [] => []
  | 0, l => l
  | fuel + 1, c :: rest =>
    if pat ≠ [] ∧ prefixB pat (c :: rest) = true then
      rep ++ replaceFuel pat rep fuel ((c :: rest).drop pat.length)
    else c :: replaceFuel pat rep fuel rest

/-- Python `str.replace(pat, rep)`. -/
def replaceL (pat rep : List Char) (l : List Char) : List Char :=
  replaceFuel pat rep l.length l

/-- Python `str.split()` with no arguments: split on whitespace runs,
discarding empty pieces; the step budget of one per character always suffices. -/
def splitWsFuel : ℕ → List Char → List (List Char)
  | _, [] => []
  | 0, _ => []
  | fuel + 1, c :: rest =>
    if isWs c then splitWsFuel fuel rest
    else
      (c :: rest.takeWhile (fun x => !isWs x))
        :: splitWsFuel fuel (rest.dropWhile (fun x => !isWs x))

/-- Python `str.split()` with no arguments. -/
def splitWs (l : List Char) : List (List Char) := splitWsFuel l.length l

/-- The `slugify` helper: lowercase and strip the name, normalize a few symbols, hyphen-join
the words, keep only URL-safe characters, strip stray hyphens, and fall back to
the literal "service" when nothing usable remains. -/
def slugify (name : String) : String :=
  let s0 := lowerStr (stripStr name)
  let s1 := replaceL ['&'] "and".data s0.data
  let s2 := replaceL ['/'] ['-'] s1
  let s3 := replaceL [Char.ofNat 8217] [] s2
  let s4 := replaceL [Char.ofNat 39] [] s3
  let s5 := List.intercalate ['-'] (splitWs s4)
  let allow := "abcdefghijklmnopqrstuvwxyz0123456789-".data
  let s6 := s5.filter (fun ch => allow.contains ch)
  let s7 := ((s6.dropWhile (fun c => c = '-')).reverse.dropWhile (fun c => c = '-')).reverse
  if s7 = [] then "service" else ⟨s7⟩

/-- The `_parse_bool` helper: boolean-like text parsed to a boolean. -/
def _parse_bool (x : String) : Bool :=
  let t := lowerStr (stripStr x)
  t == "1" || t == "true" || t == "yes" || t == "y" || t == "t"

/-- Python `str.split(sep)` for a one-character separator (keeps empty pieces). -/
def splitChar (sep : Char) : List Char → List (List Char)
  | [] => [[]]
  | c :: rest =>
    if c = sep then [] :: splitChar sep rest
    else
      match splitChar sep rest with
      | [] => [[c]]
      | h :: t => (c :: h) :: t

/-- A pipe-delimited CSV cell parsed to a list of stripped, non-empty strings. -/
def pipeList (s : String) : List String :=
  (((splitChar '|' s.data).map stripL).filter (fun l => decide (l ≠ []))).map
    (fun l => (⟨l⟩ : String))

/-- Python `float(s)` on plain decimal forms, modelled over `ℚ`. -/
def parseFloatPy (s : String) : Option ℚ :=
  let t := stripL s.data
  let neg : Bool := match t with | '-' :: _ => true | _ => false
  let core : List Char :=
    match t with
    | '+' :: r => r
    | '-' :: r => r
    | r => r
  match splitChar '.' core with
  | [ip] => (digitsVal ip).map (fun n => if neg then -(n : ℚ) else (n : ℚ))
  | [ip, fp] =>
    if ip = [] ∧ fp = [] then none
    else
      let ipv : Option ℕ := if ip = [] then some 0 else digitsVal ip
      let fpv : Option ℚ :=
        if fp = [] then some 0
        else (digitsVal fp).map (fun n => (n : ℚ) / (10 : ℚ) ^ fp.length)
      match ipv, fpv with
      | some i, some f =>
        some (if neg then -((i : ℚ) + f) else ((i : ℚ) + f))
      | _, _ => none
  | _ => none

/-- Python `row.get(k, dflt)` on a CSV row. -/
def rowGet (row : List (String × String)) (k dflt : String) : String :=
  match row.find? (fun p => p.1 == k) with
  | some p => p.2
  | none => dflt

/-- Python `int(row.get(k, "0") or 0)`: empty or missing cells fall back to zero; a
non-numeric cell raises (modelled as `none`, which skips the row). -/
def intField (row : List (String × String)) (k : String) : Option Int :=
  let s := rowGet row k "0"
  if s = "" then some 0 else parseIntPy s

/-- Python `float(row.get(k, "0") or 0)`. -/
def floatField (row : List (String × String)) (k : String) : Option ℚ :=
  let s := rowGet row k "0"
  if s = "" then some 0 else parseFloatPy s

/-- One row of `load_csv_bytes`: normalize the cells into a record, skipping
the row (`none`) on a parse failure or a missing name. -/
def load_row (row : List (String × String)) : Option Item :=
  match intField row "beds", intField row "age_min", intField row "age_max",
      floatField row "lat", floatField row "lng" with
  | some beds, some amin, some amax, some lat, some lng =>
    let name := stripStr (rowGet row "name" "")
    if name = "" then none
    else some
      { name := name,
        type_ := stripStr (rowGet row "type" ""),
        neighborhood := stripStr (rowGet row "neighborhood" ""),
        address := stripStr (rowGet row "address" ""),
        phone := stripStr (rowGet row "phone" ""),
        website := stripStr (rowGet row "website" ""),
        email := stripStr (rowGet row "email" ""),
        hours := stripStr (rowGet row "hours" ""),
        notes := stripStr (rowGet row "notes" ""),
        walk_in := _parse_bool (rowGet row "walk_in" ""),
        appt_required := _parse_bool (rowGet row "appt_required" ""),
        van_access := _parse_bool (rowGet row "van_access" ""),
        beds := beds, lat := lat, lng := lng, age_min := amin, age_max := amax,
        lgbtq_friendly := _parse_bool (rowGet row "lgbtq_friendly" ""),
        languages := pipeList (rowGet row "languages" ""),
        disability_access := pipeList (rowGet row "disability_access" ""),
        tribal_friendly := _parse_bool (rowGet row "tribal_friendly" ""),
        tribe_run := _parse_bool (rowGet row "tribe_run" ""),
        services := [lowerStr (stripStr (rowGet row "type" ""))],
        slug := slugify name,
        minor_note := false }
  | _, _, _, _, _ => none

/-- The concrete CSV row of the specification's round-trip example. -/
def testRow : List (String × String) :=
  [("name", "Test Shelter"), ("walk_in", "yes"), ("beds", "3"),
   ("languages", "English|Spanish")]

/-- A CSV row with an empty beds cell. -/
def rowX : List (String × String) := [("name", "X"), ("beds", "")]

/-- The record `rowX` loads into. -/
def itX : Item :=
  { name := "X", type_ := "", neighborhood := "", address := "", phone := "",
    website := "", email := "", hours := "", notes := "", walk_in := false,
    appt_required := false, van_access := false, beds := 0, lat := 0, lng := 0,
    age_min := 0, age_max := 0, lgbtq_friendly := false, languages := [],
    disability_access := [], tribal_friendly := false, tribe_run := false,
    services := [""], slug := "x", minor_note := false }

/-! ## Theorems -/
theorem prefixB_iff (n : List Char) : ∀ l, prefixB n l = true ↔ ∃ r, l = n ++ r := by
  induction n with
  | nil => intro l; simp [prefixB]
  | cons a as ih =>
    intro l
    cases l with
    | nil => simp [prefixB]
    | cons b bs =>
      simp only [prefixB, Bool.and_eq_true, beq_iff_eq, ih bs, List.cons_append,
        List.cons.injEq]
      constructor
      · rintro ⟨rfl, r, rfl⟩; exact ⟨r, rfl, rfl⟩
      · rintro ⟨r, rfl, rfl⟩; exact ⟨rfl, r, rfl⟩

theorem infixB_iff (n : List Char) : ∀ h, infixB n h = true ↔ ∃ a b, h = a ++ n ++ b := by
  intro h
  induction h with
  | nil =>
    simp only [infixB, prefixB_iff]
    constructor
    · rintro ⟨r, hr⟩
      exact ⟨[], r, by simpa using hr⟩
    · rintro ⟨a, b, hab⟩
      have ha : a = [] := by
        cases a with
        | nil => rfl
        | cons x xs => simp at hab
      subst ha
      exact ⟨b, by simpa using hab⟩
  | cons c cs ih =>
    simp only [infixB, Bool.or_eq_true, prefixB_iff, ih]
    constructor
    · rintro (⟨r, hr⟩ | ⟨a, b, hab⟩)
      · exact ⟨[], r, by simpa using hr⟩
      · exact ⟨c :: a, b, by simp [hab]⟩
    · rintro ⟨a, b, hab⟩
      cases a with
      | nil => exact Or.inl ⟨b, by simpa using hab⟩
      | cons x xs =>
        simp only [List.cons_append, List.cons.injEq] at hab
        exact Or.inr ⟨xs, b, by simp [hab.1, hab.2]⟩

/-- Dropping a whitespace-only front cannot lose an occurrence of a needle whose
first character is not whitespace. -/
theorem dropWhile_ws_preserves (n : List Char) (hn : n ≠ [])
    (hh : isWs (n.headI) = false) :
    ∀ a b, ∃ a2, (a ++ n ++ b).dropWhile isWs = a2 ++ n ++ b := by
  intro a b
  induction a with
  | nil =>
    refine ⟨[], ?_⟩
    cases n with
    | nil => exact absurd rfl hn
    | cons x xs =>
      simp only [List.headI] at hh
      simp [List.dropWhile_cons, hh]
  | cons y ys ih =>
    by_cases hy : isWs y = true
    · obtain ⟨a2, ha2⟩ := ih
      exact ⟨a2, by simpa [List.dropWhile_cons, hy] using ha2⟩
    · refine ⟨y :: ys, ?_⟩
      have hy' : isWs y = false := Bool.eq_false_iff.mpr hy
      simp [List.dropWhile_cons, hy']

/-- A list is the concatenation of its whitespace prefix with its
whitespace-stripped front. -/
theorem exists_dropWhile_decomp (l : List Char) :
    ∃ p, l = p ++ l.dropWhile isWs :=
  ⟨l.takeWhile isWs, (List.takeWhile_append_dropWhile isWs l).symm⟩

/-- A list is its stripped core surrounded by the stripped-off ends. -/
theorem exists_stripL_decomp (t : List Char) : ∃ p s, t = p ++ stripL t ++ s := by
  obtain ⟨p, hp⟩ := exists_dropWhile_decomp t
  obtain ⟨q, hq⟩ := exists_dropWhile_decomp (t.dropWhile isWs).reverse
  refine ⟨p, q.reverse, ?_⟩
  have hcore : t.dropWhile isWs = stripL t ++ q.reverse := by
    have h2 := congrArg List.reverse hq
    simpa [stripL, List.reverse_append] using h2
  rw [List.append_assoc, ← hcore, ← hp]

/-- Stripping surrounding whitespace does not change whether a needle with
non-whitespace first and last characters occurs inside the string. -/
theorem infixB_stripL (n : List Char) (hn : n ≠ [])
    (hh : isWs (n.headI) = false) (hl : isWs ((n.reverse).headI) = false) (t : List Char) :
    infixB n (stripL t) = infixB n t := by
  have hrn : n.reverse ≠ [] := by simpa using hn
  by_cases h : infixB n t = true
  · rw [h]
    rw [infixB_iff] at h
    obtain ⟨a, b, rfl⟩ := h
    rw [infixB_iff]
    unfold stripL
    obtain ⟨a2, ha2⟩ := dropWhile_ws_preserves n hn hh a b
    rw [ha2]
    have hrev : (a2 ++ n ++ b).reverse = b.reverse ++ n.reverse ++ a2.reverse := by
      simp [List.reverse_append, List.append_assoc]
    rw [hrev]
    obtain ⟨b2, hb2⟩ := dropWhile_ws_preserves n.reverse hrn hl (b.reverse) (a2.reverse)
    rw [hb2]
    exact ⟨a2, b2.reverse, by simp [List.reverse_append, List.append_assoc]⟩
  · by_cases h2 : infixB n (stripL t) = true
    · exfalso
      apply h
      rw [infixB_iff] at h2 ⊢
      obtain ⟨a, b, hab⟩ := h2
      obtain ⟨p, s, hps⟩ := exists_stripL_decomp t
      refine ⟨p ++ a, b ++ s, ?_⟩
      rw [hps, hab]
      simp [List.append_assoc]
    · rw [Bool.eq_false_iff.mpr h, Bool.eq_false_iff.mpr h2]

theorem strIn_stripStr (k : String) (hk : goodKw k = true) (t : String) :
    strIn k (stripStr t) = strIn k t := by
  unfold goodKw at hk
  simp only [Bool.and_eq_true, Bool.not_eq_true'] at hk
  obtain ⟨⟨h1, h2⟩, h3⟩ := hk
  show infixB k.data (stripL t.data) = infixB k.data t.data
  exact infixB_stripL k.data (by simpa [List.isEmpty_iff] using h1) h2 h3 t.data

theorem any_strIn_stripStr (kws : List String) (hk : kws.all goodKw = true) (t : String) :
    (kws.any fun k => strIn k (stripStr t)) = (kws.any fun k => strIn k t) := by
  induction kws with
  | nil => rfl
  | cons k rest ih =>
    simp only [List.all_cons, Bool.and_eq_true] at hk
    simp [List.any_cons, strIn_stripStr k hk.1, ih hk.2]

theorem triage_eq_spec (msg : String) : (ai_triage msg).1 = triageSpecCat msg := by
  have e1 := any_strIn_stripStr EMERGENCY_KWS (by decide) (lowerStr msg)
  have e2 := any_strIn_stripStr CRISIS_KWS (by decide) (lowerStr msg)
  have e3 := any_strIn_stripStr MEDICAL_KWS (by decide) (lowerStr msg)
  have e4 := any_strIn_stripStr HOUSING_KWS (by decide) (lowerStr msg)
  have e5 := any_strIn_stripStr ID_KWS (by decide) (lowerStr msg)
  have e6 := any_strIn_stripStr FOOD_KWS (by decide) (lowerStr msg)
  have e7 := any_strIn_stripStr DETOX_KWS (by decide) (lowerStr msg)
  have e8 := any_strIn_stripStr MENTAL_KWS (by decide) (lowerStr msg)
  simp only [ai_triage, triageSpecCat, TRIAGE_GROUPS, firstMatchCat, e1, e2, e3, e4,
    e5, e6, e7, e8]
  split_ifs <;> rfl

/-- C1: the triage classifier evaluates its keyword groups in the fixed priority
order emergency, mental_crisis, medical, housing, id, food, detox, mental_health,
general, returning the category of the first group any of whose keywords occurs
as a substring of the lowercased message; moreover
`classify("overdose, need housing")` is "emergency", `classify("I need housing")`
is "housing", `classify("I have a medical emergency")` is "medical", and
`classify("Something else")` is "general". -/
theorem C1_triage_priority_order :
    (∀ msg : String, (ai_triage msg).1 = triageSpecCat msg)
    ∧ (ai_triage "overdose, need housing").1 = "emergency"
    ∧ (ai_triage "I need housing").1 = "housing"
    ∧ (ai_triage "I have a medical emergency").1 = "medical"
    ∧ (ai_triage "Something else").1 = "general" :=
  ⟨triage_eq_spec, by decide, by decide, by decide, by decide⟩

theorem expand_foldl_union (ql : String) :
    ∀ (l : List (String × List String)) (acc : Finset String),
      l.foldl (fun acc g => if groupTriggered g ql then acc ∪ g.2.toFinset else acc) acc
        = acc ∪ triggeredUnion ql l := by
  intro l
  induction l with
  | nil => intro acc; simp [triggeredUnion]
  | cons g rest ih =>
    intro acc
    simp only [List.foldl_cons, triggeredUnion, ih]
    by_cases hg : groupTriggered g ql = true
    · simp [hg, Finset.union_assoc]
    · simp [hg]

/-- C5 counterexample: the whitespace-only query " " is a non-empty string, yet
expansion returns the empty set, which does not contain the literal
(lowercased, trimmed) query term. -/
theorem C5_expand_counterexample :
    (" " : String) ≠ "" ∧ _expand (some " ") = ∅
      ∧ lowerStr (stripStr " ") ∉ _expand (some " ") := by
  refine ⟨by decide, by decide, by decide⟩

/-- C5 (amended): for every query string whose stripped, lowercased form is
non-empty, expansion returns the union of the literal (lowercased, trimmed)
query with the synonym sets of every triggered group, and in particular the
literal query term is always a member of the expanded set. -/
theorem C5_expand_union_monotonic (q : String)
    (hq : lowerStr (stripStr q) ≠ "") :
    _expand (some q)
        = insert (lowerStr (stripStr q))
            (triggeredUnion (lowerStr (stripStr q)) SYNONYMS)
      ∧ lowerStr (stripStr q) ∈ _expand (some q) := by
  have hexp : _expand (some q)
      = insert (lowerStr (stripStr q))
          (triggeredUnion (lowerStr (stripStr q)) SYNONYMS) := by
    unfold _expand
    simp only [Option.getD_some, if_neg hq]
    rw [expand_foldl_union, ← Finset.insert_eq]
  exact ⟨hexp, by rw [hexp]; exact Finset.mem_insert_self _ _⟩

/-- C5 witness: a concrete query with a non-empty trimmed form. -/
theorem C5_expand_witness :
    _expand (some "shower please")
        = insert (lowerStr (stripStr "shower please"))
            (triggeredUnion (lowerStr (stripStr "shower please")) SYNONYMS)
      ∧ lowerStr (stripStr "shower please") ∈ _expand (some "shower please") :=
  C5_expand_union_monotonic "shower please" (by decide)

theorem ageStage_shape (age : Option String) (it r : Item)
    (h : ageStage age it = some r) :
    r = it ∨ r = { it with minor_note := true } := by
  unfold ageStage at h
  cases age with
  | none => simp only [Option.some.injEq] at h; exact Or.inl h.symm
  | some s =>
    simp only [] at h
    by_cases hs : s = ""
    · simp only [if_pos hs, Option.some.injEq] at h; exact Or.inl h.symm
    · rw [if_neg hs] at h
      cases hp : parseIntPy s with
      | none =>
        rw [hp] at h; simp only [Option.some.injEq] at h; exact Or.inl h.symm
      | some a =>
        rw [hp] at h
        simp only [] at h
        split at h
        · simp only [Option.some.injEq] at h
          by_cases ha : a < 18
          · rw [if_pos ha] at h; exact Or.inr h.symm
          · rw [if_neg ha] at h; exact Or.inl h.symm
        · simp at h

theorem ageStage_preserves (age : Option String) (it r : Item)
    (h : ageStage age it = some r) : clearNote r = clearNote it := by
  rcases ageStage_shape age it r h with rfl | rfl <;> rfl

theorem okState_true (qterms : Finset String) (kind neighborhood : Option String)
    (wi : Option Bool) (age : Option String) (lg : Option Bool)
    (lang dis : Option String) (tr trr : Option Bool) (it r : Item)
    (h : okState qterms kind neighborhood wi age lg lang dis tr trr it = (true, r)) :
    kindMismatch kind it = false ∧ hoodMismatch neighborhood it = false
      ∧ wiMismatch wi it = false ∧ ageStage age it = some r
      ∧ lgbtqMismatch lg r = false ∧ tribalMismatch tr r = false
      ∧ tribeRunMismatch trr r = false ∧ langMismatch lang r = false
      ∧ disMismatch dis r = false ∧ textMiss qterms r = false := by
  unfold okState at h
  by_cases h1 : kindMismatch kind it = true
  · rw [if_pos h1] at h; simp at h
  rw [if_neg h1] at h
  by_cases h2 : hoodMismatch neighborhood it = true
  · rw [if_pos h2] at h; simp at h
  rw [if_neg h2] at h
  by_cases h3 : wiMismatch wi it = true
  · rw [if_pos h3] at h; simp at h
  rw [if_neg h3] at h
  cases ha : ageStage age it with
  | none => rw [ha] at h; simp at h
  | some it2 =>
    rw [ha] at h
    simp only [] at h
    by_cases h4 : lgbtqMismatch lg it2 = true
    · rw [if_pos h4] at h; simp at h
    rw [if_neg h4] at h
    by_cases h5 : tribalMismatch tr it2 = true
    · rw [if_pos h5] at h; simp at h
    rw [if_neg h5] at h
    by_cases h6 : tribeRunMismatch trr it2 = true
    · rw [if_pos h6] at h; simp at h
    rw [if_neg h6] at h
    by_cases h7 : langMismatch lang it2 = true
    · rw [if_pos h7] at h; simp at h
    rw [if_neg h7] at h
    by_cases h8 : disMismatch dis it2 = true
    · rw [if_pos h8] at h; simp at h
    rw [if_neg h8] at h
    by_cases h9 : textMiss qterms it2 = true
    · rw [if_pos h9] at h; simp at h
    rw [if_neg h9] at h
    simp only [Prod.mk.injEq, true_and] at h
    subst h
    exact ⟨Bool.eq_false_iff.mpr h1, Bool.eq_false_iff.mpr h2, Bool.eq_false_iff.mpr h3, rfl,
      Bool.eq_false_iff.mpr h4, Bool.eq_false_iff.mpr h5, Bool.eq_false_iff.mpr h6,
      Bool.eq_false_iff.mpr h7, Bool.eq_false_iff.mpr h8, Bool.eq_false_iff.mpr h9⟩

theorem okState_snd (qterms : Finset String) (kind neighborhood : Option String)
    (wi : Option Bool) (age : Option String) (lg : Option Bool)
    (lang dis : Option String) (tr trr : Option Bool) (it : Item) :
    (okState qterms kind neighborhood wi age lg lang dis tr trr it).2 = it
      ∨ (okState qterms kind neighborhood wi age lg lang dis tr trr it).2
          = { it with minor_note := true } := by
  unfold okState
  split
  · exact Or.inl rfl
  split
  · exact Or.inl rfl
  split
  · exact Or.inl rfl
  split
  · exact Or.inl rfl
  next it2 heq =>
    rcases ageStage_shape age it it2 heq with rfl | rfl
    · split
      · exact Or.inl rfl
      split
      · exact Or.inl rfl
      split
      · exact Or.inl rfl
      split
      · exact Or.inl rfl
      split
      · exact Or.inl rfl
      split
      · exact Or.inl rfl
      exact Or.inl rfl
    · split
      · exact Or.inr rfl
      split
      · exact Or.inr rfl
      split
      · exact Or.inr rfl
      split
      · exact Or.inr rfl
      split
      · exact Or.inr rfl
      split
      · exact Or.inr rfl
      exact Or.inr rfl

theorem okState_clearNote (qterms : Finset String) (kind neighborhood : Option String)
    (wi : Option Bool) (age : Option String) (lg : Option Bool)
    (lang dis : Option String) (tr trr : Option Bool) (it : Item) :
    clearNote (okState qterms kind neighborhood wi age lg lang dis tr trr it).2
      = clearNote it := by
  rcases okState_snd qterms kind neighborhood wi age lg lang dis tr trr it with h | h
  · rw [h]
  · rw [h]; rfl

theorem ageOkAt_of_stage (s : String) (a : Int) (it r : Item)
    (hp : parseIntPy s = some a) (h : ageStage (some s) it = some r) : ageOkAt a it := by
  unfold ageStage at h
  simp only [] at h
  by_cases hs : s = ""
  · subst hs
    rw [show parseIntPy "" = none from rfl] at hp
    exact absurd hp (by simp)
  · rw [if_neg hs, hp] at h
    simp only [] at h
    split at h
    · next hb => exact hb
    · simp at h

theorem fetch_mem_okState (q kind neighborhood : Option String) (wi : Option Bool)
    (age : Option String) (lg : Option Bool) (lang dis : Option String)
    (tr trr : Option Bool) (items : List Item) (r : Item)
    (hr : r ∈ fetch_services q kind neighborhood wi age lg lang dis tr trr items) :
    ∃ it ∈ items,
      okState (_expand q) kind neighborhood wi age lg lang dis tr trr it = (true, r) := by
  simp only [fetch_services, fetchState, List.mem_map, List.mem_filter] at hr
  obtain ⟨p, ⟨⟨it, hit, hok⟩, hp1⟩, hp2⟩ := hr
  refine ⟨it, hit, ?_⟩
  obtain ⟨b, x⟩ := p
  simp only at hp1 hp2
  rw [hok]
  rw [← hp1, ← hp2]

/-- C2: search returns, in the input order of the underlying catalog list, only
records that satisfy every requested filter; a record satisfies the free-text
filter exactly when some expanded query term occurs as a substring of the
lowercased concatenation of its name, notes, type, neighborhood and tag list. -/
theorem C2_search_conjunctive_ordered (q kind neighborhood : Option String)
    (wi : Option Bool) (age : Option String) (lg : Option Bool)
    (lang dis : Option String) (tr trr : Option Bool) (items : List Item) :
    (∀ r ∈ fetch_services q kind neighborhood wi age lg lang dis tr trr items,
      (∀ k, kind = some k → k ≠ "" → kindOk k r)
      ∧ (∀ h, neighborhood = some h → h ≠ "" → hoodOk h r)
      ∧ (wi = some true → r.walk_in = true)
      ∧ (∀ s a, age = some s → parseIntPy s = some a → ageOkAt a r)
      ∧ (lg = some true → r.lgbtq_friendly = true)
      ∧ (∀ l, lang = some l → l ≠ "" → langOk l r)
      ∧ (∀ d, dis = some d → d ≠ "" → disOk d r)
      ∧ (tr = some true → r.tribal_friendly = true)
      ∧ (trr = some true → r.tribe_run = true)
      ∧ ((_expand q).Nonempty → textOk (_expand q) r))
    ∧ List.Sublist
        ((fetch_services q kind neighborhood wi age lg lang dis tr trr items).map clearNote)
        (items.map clearNote) := by
  constructor
  · intro r hr
    obtain ⟨it, hit, hok⟩ :=
      fetch_mem_okState q kind neighborhood wi age lg lang dis tr trr items r hr
    obtain ⟨f1, f2, f3, f4, f5, f6, f7, f8, f9, f10⟩ :=
      okState_true (_expand q) kind neighborhood wi age lg lang dis tr trr it r hok
    have hcn : clearNote r = clearNote it := ageStage_preserves age it r f4
    have htype : r.type_ = it.type_ := by
      have h2 := congrArg Item.type_ hcn; simpa [clearNote] using h2
    have hhood : r.neighborhood = it.neighborhood := by
      have h2 := congrArg Item.neighborhood hcn; simpa [clearNote] using h2
    have hwalk : r.walk_in = it.walk_in := by
      have h2 := congrArg Item.walk_in hcn; simpa [clearNote] using h2
    have hamin : r.age_min = it.age_min := by
      have h2 := congrArg Item.age_min hcn; simpa [clearNote] using h2
    have hamax : r.age_max = it.age_max := by
      have h2 := congrArg Item.age_max hcn; simpa [clearNote] using h2
    refine ⟨?_, ?_, ?_, ?_, ?_, ?_, ?_, ?_, ?_, ?_⟩
    · intro k hk hkne
      rw [hk] at f1
      unfold kindOk
      rw [htype]
      simp [kindMismatch, hkne] at f1
      exact f1
    · intro h hh hhne
      rw [hh] at f2
      unfold hoodOk
      rw [hhood]
      simp [hoodMismatch, hhne] at f2
      exact f2
    · intro hwi
      rw [hwi] at f3
      simp [wiMismatch] at f3
      rw [hwalk]
      exact f3
    · intro s a hs hp
      rw [hs] at f4
      have := ageOkAt_of_stage s a it r hp f4
      unfold ageOkAt at this ⊢
      rw [hamin, hamax]
      exact this
    · intro hlg
      rw [hlg] at f5
      simp [lgbtqMismatch] at f5
      exact f5
    · intro l hl hlne
      rw [hl] at f8
      simp [langMismatch, hlne] at f8
      simpa [langOk, List.mem_map] using f8
    · intro d hd hdne
      rw [hd] at f9
      simp [disMismatch, hdne] at f9
      simpa [disOk, List.mem_map] using f9
    · intro htr
      rw [htr] at f6
      simp [tribalMismatch] at f6
      exact f6
    · intro htrr
      rw [htrr] at f7
      simp [tribeRunMismatch] at f7
      exact f7
    · intro hne
      unfold textMiss at f10
      rw [decide_eq_true hne] at f10
      simp only [Bool.true_and, Bool.not_eq_false', decide_eq_true_eq] at f10
      exact f10
  · unfold fetch_services fetchState
    simp only []
    have hsub :
        List.Sublist
          ((((items.map (okState (_expand q) kind neighborhood wi age lg lang dis tr trr)).filter
              (·.1)).map (·.2)).map clearNote)
          (((items.map
                (okState (_expand q) kind neighborhood wi age lg lang dis tr trr)).map
              (·.2)).map clearNote) :=
      List.Sublist.map clearNote
        (List.Sublist.map (fun p : Bool × Item => p.2) (List.filter_sublist _))
    have heq :
        ((items.map (okState (_expand q) kind neighborhood wi age lg lang dis tr trr)).map
            (·.2)).map clearNote = items.map clearNote := by
      rw [List.map_map, List.map_map]
      apply List.map_congr_left
      intro it _
      exact okState_clearNote (_expand q) kind neighborhood wi age lg lang dis tr trr it
    rw [heq] at hsub
    exact hsub

/-- C2 witness: a concrete query whose result record satisfies the requested
type filter and the free-text filter. -/
theorem C2_search_witness :
    kindOk "Clinic" itemA ∧ textOk (_expand (some "medical")) itemA := by
  have h := (C2_search_conjunctive_ordered (some "medical") (some "Clinic") none none none
    none none none none none [itemA, itemB]).1 itemA (by decide)
  exact ⟨h.1 "Clinic" rfl (by decide), h.2.2.2.2.2.2.2.2.2 (by decide)⟩

/-! ## Age-filter error handling and the blank-query case -/

theorem ageStage_none_of_parse (s : String) (hp : parseIntPy s = none) (it : Item) :
    ageStage (some s) it = some it := by
  unfold ageStage
  simp only []
  by_cases hs : s = ""
  · rw [if_pos hs]
  · rw [if_neg hs, hp]

theorem okState_age_unparsable (qterms : Finset String) (kind neighborhood : Option String)
    (wi : Option Bool) (lg : Option Bool) (lang dis : Option String) (tr trr : Option Bool)
    (s : String) (hp : parseIntPy s = none) (it : Item) :
    okState qterms kind neighborhood wi (some s) lg lang dis tr trr it
      = okState qterms kind neighborhood wi none lg lang dis tr trr it := by
  unfold okState
  rw [ageStage_none_of_parse s hp it]
  rw [show ageStage none it = some it from rfl]

theorem tailChain_fst (qterms : Finset String) (lg : Option Bool) (lang dis : Option String)
    (tr trr : Option Bool) (x : Item) :
    (if lgbtqMismatch lg x = true then (false, x)
     else if tribalMismatch tr x = true then (false, x)
     else if tribeRunMismatch trr x = true then (false, x)
     else if langMismatch lang x = true then (false, x)
     else if disMismatch dis x = true then (false, x)
     else if textMiss qterms x = true then (false, x)
     else (true, x)).1 = okTail qterms lg lang dis tr trr x := by
  unfold okTail
  cases c1 : lgbtqMismatch lg x with
  | true => simp
  | false =>
    cases c2 : tribalMismatch tr x with
    | true => simp
    | false =>
      cases c3 : tribeRunMismatch trr x with
      | true => simp
      | false =>
        cases c4 : langMismatch lang x with
        | true => simp
        | false =>
          cases c5 : disMismatch dis x with
          | true => simp
          | false =>
            cases c6 : textMiss qterms x with
            | true => simp
            | false => simp

theorem tailChain_snd (qterms : Finset String) (lg : Option Bool) (lang dis : Option String)
    (tr trr : Option Bool) (x : Item) :
    (if lgbtqMismatch lg x = true then (false, x)
     else if tribalMismatch tr x = true then (false, x)
     else if tribeRunMismatch trr x = true then (false, x)
     else if langMismatch lang x = true then (false, x)
     else if disMismatch dis x = true then (false, x)
     else if textMiss qterms x = true then (false, x)
     else (true, x)).2 = x := by
  split
  · rfl
  split
  · rfl
  split
  · rfl
  split
  · rfl
  split
  · rfl
  split
  · rfl
  rfl

/-- The filter chain does not read the `_minor_note` annotation. -/
theorem okTail_noted (qterms : Finset String) (lg : Option Bool) (lang dis : Option String)
    (tr trr : Option Bool) (it : Item) :
    okTail qterms lg lang dis tr trr { it with minor_note := true }
      = okTail qterms lg lang dis tr trr it := rfl

theorem okState_fst (qterms : Finset String) (kind neighborhood : Option String)
    (wi : Option Bool) (age : Option String) (lg : Option Bool)
    (lang dis : Option String) (tr trr : Option Bool) (it : Item) :
    (okState qterms kind neighborhood wi age lg lang dis tr trr it).1
      = (!(kindMismatch kind it) && !(hoodMismatch neighborhood it) && !(wiMismatch wi it)
          && (match ageStage age it with
              | none => false
              | some it2 => okTail qterms lg lang dis tr trr it2)) := by
  unfold okState
  cases h1 : kindMismatch kind it with
  | true => simp
  | false =>
    cases h2 : hoodMismatch neighborhood it with
    | true => simp
    | false =>
      cases h3 : wiMismatch wi it with
      | true => simp
      | false =>
        cases hag : ageStage age it with
        | none => simp
        | some it2 =>
          simp only [Bool.not_false, Bool.true_and]
          exact tailChain_fst qterms lg lang dis tr trr it2

/-- C6: the numeric age filter excludes a record exactly when the parsed age
fails `ageMin ≤ age ∧ (ageMax = 0 ∨ age ≤ ageMax)`; a non-numeric age value is
neutralized, making search behave exactly as if no age filter were requested. -/
theorem C6_age_filter_neutralized :
    (∀ (q kind neighborhood : Option String) (wi : Option Bool) (lg : Option Bool)
        (lang dis : Option String) (tr trr : Option Bool) (items : List Item) (s : String),
      parseIntPy s = none →
        fetchState q kind neighborhood wi (some s) lg lang dis tr trr items
          = fetchState q kind neighborhood wi none lg lang dis tr trr items)
    ∧ (∀ (qterms : Finset String) (kind neighborhood : Option String) (wi : Option Bool)
        (lg : Option Bool) (lang dis : Option String) (tr trr : Option Bool)
        (s : String) (a : Int) (it : Item),
      parseIntPy s = some a →
        (okState qterms kind neighborhood wi (some s) lg lang dis tr trr it).1
          = (decide (ageOkAt a it)
              && (okState qterms kind neighborhood wi none lg lang dis tr trr it).1)) := by
  constructor
  · intro q kind neighborhood wi lg lang dis tr trr items s hp
    unfold fetchState
    have hfun : okState (_expand q) kind neighborhood wi (some s) lg lang dis tr trr
        = okState (_expand q) kind neighborhood wi none lg lang dis tr trr :=
      funext (fun it =>
        okState_age_unparsable (_expand q) kind neighborhood wi lg lang dis tr trr s hp it)
    simp only [hfun]
  · intro qterms kind neighborhood wi lg lang dis tr trr s a it hp
    have hs : s ≠ "" := by
      intro h
      subst h
      rw [show parseIntPy "" = none from rfl] at hp
      cases hp
    have hstage : ageStage (some s) it
        = (if ageOkAt a it then
            some (if a < 18 then { it with minor_note := true } else it)
          else none) := by
      unfold ageStage ageOkAt
      simp only []
      rw [if_neg hs, hp]
    rw [okState_fst, okState_fst, hstage]
    rw [show ageStage none it = some it from rfl]
    by_cases hb : ageOkAt a it
    · rw [if_pos hb]
      simp only []
      rw [decide_eq_true hb]
      by_cases ha : a < 18
      · rw [if_pos ha, okTail_noted]
        simp [Bool.and_assoc]
      · rw [if_neg ha]
        simp [Bool.and_assoc]
    · rw [if_neg hb]
      simp only []
      rw [decide_eq_false hb]
      simp

/-- C6 witness: a non-numeric age value is neutralized on a concrete catalog,
and a numeric age value filters by the parsed bounds on a concrete record. -/
theorem C6_witness :
    fetchState none none none none (some "abc") none none none none none [itemA]
      = fetchState none none none none none none none none none none [itemA]
    ∧ (okState ∅ none none none (some "16") none none none none none itemA).1
      = (decide (ageOkAt 16 itemA)
          && (okState ∅ none none none none none none none none none itemA).1) :=
  ⟨C6_age_filter_neutralized.1 none none none none none none none none none [itemA] "abc"
      (by decide),
   C6_age_filter_neutralized.2 ∅ none none none none none none none none "16" 16 itemA
      (by decide)⟩

/-- C10: a query that is empty or whitespace-only expands to the empty term set
and makes search behave exactly as if no query had been passed at all. -/
theorem C10_blank_query_like_no_query :
    ∀ (kind neighborhood : Option String) (wi : Option Bool) (age : Option String)
      (lg : Option Bool) (lang dis : Option String) (tr trr : Option Bool)
      (items : List Item) (qs : String),
      stripStr qs = "" →
        _expand (some qs) = ∅
        ∧ fetchState (some qs) kind neighborhood wi age lg lang dis tr trr items
            = fetchState none kind neighborhood wi age lg lang dis tr trr items := by
  intro kind neighborhood wi age lg lang dis tr trr items qs hqs
  have hql : lowerStr (stripStr qs) = "" := by rw [hqs]; rfl
  have hexp : _expand (some qs) = ∅ := by
    unfold _expand
    simp only [Option.getD_some, hql]
    simp
  refine ⟨hexp, ?_⟩
  unfold fetchState
  simp only [hexp, show _expand none = ∅ from rfl]

/-- C10 witness: a whitespace-only query on a concrete catalog. -/
theorem C10_blank_query_witness :
    _expand (some " ") = ∅
    ∧ fetchState (some " ") (some "Clinic") none none none none none none none none [itemA]
        = fetchState none (some "Clinic") none none none none none none none none [itemA] :=
  C10_blank_query_like_no_query (some "Clinic") none none none none none none none none
    [itemA] " " (by decide)

theorem okState_note (qterms : Finset String) (kind neighborhood : Option String)
    (wi : Option Bool) (age : Option String) (lg : Option Bool)
    (lang dis : Option String) (tr trr : Option Bool) (it : Item) :
    (okState qterms kind neighborhood wi age lg lang dis tr trr it).2
      = if noteTrigger kind neighborhood wi age it = true then
          { it with minor_note := true }
        else it := by
  unfold okState noteTrigger
  cases h1 : kindMismatch kind it with
  | true => simp
  | false =>
    cases h2 : hoodMismatch neighborhood it with
    | true => simp
    | false =>
      cases h3 : wiMismatch wi it with
      | true => simp
      | false =>
        simp only [Bool.not_false, Bool.true_and, if_neg, Bool.false_eq_true,
          not_false_eq_true]
        cases age with
        | none =>
          simp only [ageStage]
          rw [tailChain_snd]
          simp
        | some s =>
          unfold ageStage
          simp only []
          by_cases hs : s = ""
          · rw [if_pos hs, tailChain_snd]
            simp [hs]
          · simp only [if_neg hs]
            cases hp : parseIntPy s with
            | none =>
              simp only []
              rw [tailChain_snd]
              simp
            | some a =>
              simp only []
              by_cases hb : it.age_min ≤ a ∧ (it.age_max = 0 ∨ a ≤ it.age_max)
              · rw [if_pos hb]
                simp only []
                by_cases ha : a < 18
                · rw [if_pos ha, tailChain_snd]
                  simp [ageOkAt, hb, ha]
                · rw [if_neg ha, tailChain_snd]
                  simp [ha]
              · rw [if_neg hb]
                simp only []
                simp [ageOkAt, hb]

/-- C9 counterexample: with an age filter of 16 and a language filter the record
fails, the record does not match the search, yet it is annotated, and the
annotation persists in the catalog through a later query — it is not ephemeral. -/
theorem C9_note_persists_counterexample :
    fetch_services none none none none (some "16") none (some "Spanish") none none none
        [itemA] = []
    ∧ (fetchState none none none none (some "16") none (some "Spanish") none none none
          [itemA]).2
        = [{ itemA with minor_note := true }]
    ∧ (fetchState none none none none none none none none none none
          ((fetchState none none none none (some "16") none (some "Spanish") none none none
              [itemA]).2)).2
        = [{ itemA with minor_note := true }] := by
  refine ⟨by decide, by decide, by decide⟩

/-- C9 (amended): a query never modifies any catalog-record field other than the
`_minor_note` annotation; that annotation is set exactly when the record passes
the type, neighborhood and walk-in filters and the requested age parses to a
value below 18 admitted by the record's age bounds — and it is stored on the
shared record, persisting after the query rather than being ephemeral. -/
theorem C9_frame_note_persistent :
    (∀ (q kind neighborhood : Option String) (wi : Option Bool) (age : Option String)
        (lg : Option Bool) (lang dis : Option String) (tr trr : Option Bool)
        (items : List Item),
      ((fetchState q kind neighborhood wi age lg lang dis tr trr items).2).map clearNote
        = items.map clearNote)
    ∧ (∀ (qterms : Finset String) (kind neighborhood : Option String) (wi : Option Bool)
        (age : Option String) (lg : Option Bool) (lang dis : Option String)
        (tr trr : Option Bool) (it : Item),
      (okState qterms kind neighborhood wi age lg lang dis tr trr it).2
        = if noteTrigger kind neighborhood wi age it = true then
            { it with minor_note := true }
          else it) := by
  constructor
  · intro q kind neighborhood wi age lg lang dis tr trr items
    unfold fetchState
    simp only []
    rw [List.map_map, List.map_map]
    apply List.map_congr_left
    intro it _
    exact okState_clearNote (_expand q) kind neighborhood wi age lg lang dis tr trr it
  · intro qterms kind neighborhood wi age lg lang dis tr trr it
    exact okState_note qterms kind neighborhood wi age lg lang dis tr trr it

theorem runRate_burst (m : ℕ) (w : ℚ) :
    ∀ (ts b : List ℚ),
      List.Pairwise (fun x y => x ≤ y ∧ y - x ≤ w) (b ++ ts) →
      runRate m w b ts = (List.range ts.length).map (fun i => decide (b.length + i < m)) := by
  intro ts
  induction ts with
  | nil => intro b _; rfl
  | cons t ts ih =>
    intro b hp
    have hnoprune : b.dropWhile (fun x => decide (t - x > w)) = b := by
      cases b with
      | nil => rfl
      | cons x xs =>
        have hxt : x ≤ t ∧ t - x ≤ w :=
          (List.pairwise_append.mp hp).2.2 x (List.mem_cons_self x xs) t
            (List.mem_cons_self t ts)
        rw [List.dropWhile_cons]
        have hdec : decide (t - x > w) = false := by
          simp only [decide_eq_false_iff_not]
          push_neg
          linarith [hxt.2]
        rw [hdec]
        simp
    simp only [runRate]
    by_cases hm : m ≤ b.length
    · have hstep : rateStep m w b t = (false, b) := by
        unfold rateStep
        simp only []
        rw [hnoprune, if_pos hm]
      rw [hstep]
      have hsub : List.Pairwise (fun x y => x ≤ y ∧ y - x ≤ w) (b ++ ts) := by
        refine List.Pairwise.sublist ?_ hp
        exact List.Sublist.append_left (List.sublist_cons_self t ts) b
      rw [ih b hsub]
      rw [List.length_cons, List.range_succ_eq_map]
      simp only [List.map_cons, List.map_map]
      have hfalse0 : decide (b.length + 0 < m) = false := by
        simp only [Nat.add_zero, decide_eq_false_iff_not]
        omega
      rw [hfalse0]
      congr 1
      apply List.map_congr_left
      intro i _
      simp only [Function.comp]
      exact decide_eq_decide.mpr (by omega)
    · have hstep : rateStep m w b t = (true, b ++ [t]) := by
        unfold rateStep
        simp only []
        rw [hnoprune, if_neg hm]
      rw [hstep]
      have hass : (b ++ [t]) ++ ts = b ++ t :: ts := by simp
      have hsub2 : List.Pairwise (fun x y => x ≤ y ∧ y - x ≤ w) ((b ++ [t]) ++ ts) := by
        rw [hass]; exact hp
      rw [ih (b ++ [t]) hsub2]
      rw [List.length_cons, List.range_succ_eq_map]
      simp only [List.map_cons, List.map_map, List.length_append, List.length_cons,
        List.length_nil]
      have htrue0 : decide (b.length + 0 < m) = true := by
        simp only [Nat.add_zero, decide_eq_true_eq]
        omega
      rw [htrue0]
      congr 1
      apply List.map_congr_left
      intro i _
      simp only [Function.comp]
      exact decide_eq_decide.mpr (by omega)

theorem map_range_decide_lt (N : ℕ) :
    (List.range (N + 1)).map (fun i => decide (i < N)) = List.replicate N true ++ [false] := by
  rw [List.range_succ, List.map_append]
  have htrue : (List.range N).map (fun i => decide (i < N)) = List.replicate N true := by
    rw [List.eq_replicate_iff]
    constructor
    · simp
    · intro b hb
      simp only [List.mem_map, List.mem_range] at hb
      obtain ⟨i, hi, rfl⟩ := hb
      simpa using hi
  rw [htrue]
  simp

/-- C3 counterexample: with `maxHits = 0` the claim fails — the single call of
the burst is denied (consistent with "the first 0 return true"), but a further
call made long after the window still returns false, not true. -/
theorem C3_rate_counterexample :
    runRate 0 10 [] [0] = [false]
    ∧ (rateStep 0 10 ((rateStep 0 10 [] 0).2) 100).1 = false := by
  refine ⟨by decide, by decide⟩

/-- C3 (amended): for maxHits = N, a burst of N+1 in-window calls admits exactly
the first N; a denied call records no timestamp (the bucket is left exactly as
pruned); and — provided N is positive — a call made after the whole window has
elapsed since every recorded timestamp is admitted again. -/
theorem C3_rate_limiter :
    (∀ (N : ℕ) (w : ℚ) (ts : List ℚ), ts.length = N + 1 →
      List.Pairwise (fun x y => x ≤ y ∧ y - x ≤ w) ts →
      runRate N w [] ts = List.replicate N true ++ [false])
    ∧ (∀ (m : ℕ) (w : ℚ) (b : List ℚ) (t : ℚ),
        (rateStep m w b t).1 = false →
        (rateStep m w b t).2 = b.dropWhile (fun x => decide (t - x > w)))
    ∧ (∀ (m : ℕ) (w : ℚ) (b : List ℚ) (t : ℚ), 0 < m →
        (∀ x ∈ b, t - x > w) → (rateStep m w b t).1 = true) := by
  refine ⟨?_, ?_, ?_⟩
  · intro N w ts hlen hpair
    have h2 := runRate_burst N w ts [] (by simpa using hpair)
    simp only [List.length_nil, Nat.zero_add] at h2
    rw [hlen] at h2
    rw [h2, map_range_decide_lt]
  · intro m w b t hfalse
    unfold rateStep at hfalse ⊢
    simp only [] at hfalse ⊢
    split at hfalse
    · next hm => rw [if_pos hm]
    · simp at hfalse
  · intro m w b t hm hall
    unfold rateStep
    simp only []
    have hdrop : b.dropWhile (fun x => decide (t - x > w)) = [] := by
      rw [List.dropWhile_eq_nil_iff]
      intro x hx
      simpa using hall x hx
    rw [hdrop]
    rw [if_neg (by simp only [List.length_nil]; omega)]

/-- C3 witness: a concrete burst of three calls with maxHits 2, a concrete
denied call leaving the bucket exactly pruned, and a concrete re-admission
after the window. -/
theorem C3_rate_witness :
    runRate 2 10 [] [0, 1, 2] = List.replicate 2 true ++ [false]
    ∧ (rateStep 2 10 [0, 1] 5).2 = [0, 1].dropWhile (fun x => decide ((5 : ℚ) - x > 10))
    ∧ (rateStep 1 10 [0] 20).1 = true := by
  refine ⟨?_, ?_, ?_⟩
  · exact C3_rate_limiter.1 2 10 [0, 1, 2] rfl (by norm_num [List.pairwise_cons])
  · apply C3_rate_limiter.2.1 2 10 [0, 1] 5
    have hpr : ([0, 1] : List ℚ).dropWhile (fun x => decide (5 - x > 10)) = [0, 1] := by
      rw [List.dropWhile_cons]
      have h1 : decide ((5 : ℚ) - 0 > 10) = false := by
        simp only [decide_eq_false_iff_not]
        norm_num
      rw [h1]
      simp
    unfold rateStep
    simp only []
    rw [hpr]
    rw [if_pos (by simp)]
  · refine C3_rate_limiter.2.2 1 10 [0] 20 (by norm_num) ?_
    intro x hx
    simp only [List.mem_singleton] at hx
    subst hx
    norm_num

theorem runLog_inv : ∀ (es s : List Event),
    ((∀ ev ∈ s, ev.type_ ∈ ALLOWED_EVENT_TYPES) ∧ s.length ≤ EVENTS_CAP) →
    ((∀ ev ∈ es.foldl log_event s, ev.type_ ∈ ALLOWED_EVENT_TYPES)
      ∧ (es.foldl log_event s).length ≤ EVENTS_CAP) := by
  intro es
  induction es with
  | nil => intro s h; exact h
  | cons e es ih =>
    intro s h
    rw [List.foldl_cons]
    apply ih
    constructor
    · intro ev hev
      unfold log_event at hev
      by_cases he : e.type_ ∈ ALLOWED_EVENT_TYPES
      · rw [if_pos he] at hev
        have hev2 : ev ∈ mkEvent e :: s := List.take_subset _ _ hev
        rcases List.mem_cons.mp hev2 with rfl | hmem
        · simpa [mkEvent] using he
        · exact h.1 ev hmem
      · rw [if_neg he] at hev
        exact h.1 ev hev
    · unfold log_event
      by_cases he : e.type_ ∈ ALLOWED_EVENT_TYPES
      · rw [if_pos he]
        exact List.length_take_le _ _
      · rw [if_neg he]
        exact h.2

/-- C4: every stored event's type is in the fixed allow-list (`log_event` is a
no-op for any other type), the store never exceeds the capacity bound, and a
recording call made at capacity evicts exactly the oldest stored event while
keeping the count at the cap. -/
theorem C4_event_log_invariants :
    (∀ es : List Event,
      (∀ ev ∈ runLog es, ev.type_ ∈ ALLOWED_EVENT_TYPES)
      ∧ (runLog es).length ≤ EVENTS_CAP)
    ∧ (∀ (s : List Event) (e : Event),
        e.type_ ∉ ALLOWED_EVENT_TYPES → log_event s e = s)
    ∧ (∀ (s : List Event) (e : Event),
        e.type_ ∈ ALLOWED_EVENT_TYPES → s.length = EVENTS_CAP →
        log_event s e = mkEvent e :: s.dropLast
        ∧ (log_event s e).length = EVENTS_CAP) := by
  refine ⟨?_, ?_, ?_⟩
  · intro es
    exact runLog_inv es [] ⟨fun ev h => absurd h (List.not_mem_nil ev), by simp⟩
  · intro s e he
    unfold log_event
    rw [if_neg he]
  · intro s e he hs
    have hcap : EVENTS_CAP = 4999 + 1 := rfl
    have hlog : log_event s e = mkEvent e :: s.dropLast := by
      unfold log_event
      rw [if_pos he, hcap, List.take_succ_cons]
      congr 1
      rw [List.dropLast_eq_take, hs]
      simp [EVENTS_CAP]
    refine ⟨hlog, ?_⟩
    rw [hlog]
    rw [List.length_cons, List.dropLast_eq_take, List.length_take, hs]
    rfl

/-- C4 witness: the invariants instantiated on concrete stores, including a
store at full capacity. -/
theorem C4_event_log_witness :
    ((∀ ev ∈ runLog [evSearch], ev.type_ ∈ ALLOWED_EVENT_TYPES)
      ∧ (runLog [evSearch]).length ≤ EVENTS_CAP)
    ∧ log_event [] evBad = []
    ∧ log_event (List.replicate EVENTS_CAP evSearch) evSearch
        = mkEvent evSearch :: (List.replicate EVENTS_CAP evSearch).dropLast :=
  ⟨C4_event_log_invariants.1 [evSearch],
   C4_event_log_invariants.2.1 [] evBad (by decide),
   (C4_event_log_invariants.2.2 (List.replicate EVENTS_CAP evSearch) evSearch (by decide)
      (by simp)).1⟩

theorem getCount_bump (d : List (String × ℕ)) (k k' : String) :
    getCount (bump d k) k' = getCount d k' + (if k' = k then 1 else 0) := by
  induction d with
  | nil =>
    by_cases hkk : k' = k
    · subst hkk
      simp [bump, getCount]
    · have h2 : ¬ k = k' := fun hh => hkk hh.symm
      simp [bump, getCount, hkk, h2]
  | cons a rest ih =>
    obtain ⟨ak, av⟩ := a
    by_cases hak : ak = k
    · subst hak
      by_cases hkk : k' = ak
      · subst hkk
        simp [bump, getCount]
      · have h2 : ¬ ak = k' := fun hh => hkk hh.symm
        simp [bump, getCount, hkk, h2]
    · by_cases hak' : ak = k'
      · subst hak'
        have h2 : ¬ ak = k := hak
        simp [bump, getCount, hak, h2]
      · simp [bump, getCount, hak, hak', ih]

theorem getCount_foldl_types (es : List Event) :
    ∀ (d : List (String × ℕ)) (ty : String),
      getCount (es.foldl (fun d e => bump d e.type_) d) ty
        = getCount d ty + es.countP (fun e => e.type_ == ty) := by
  induction es with
  | nil => intro d ty; simp
  | cons e es ih =>
    intro d ty
    rw [List.foldl_cons, ih, getCount_bump, List.countP_cons]
    by_cases h : ty = e.type_
    · have hbe : (e.type_ == ty) = true := by simp [h]
      rw [if_pos h, hbe]
      simp only [eq_self_iff_true, if_true]
      omega
    · have hbe : (e.type_ == ty) = false := by
        simp only [beq_eq_false_iff_ne, ne_eq]
        exact fun hh => h hh.symm
      rw [if_neg h, hbe]
      simp only [Bool.false_eq_true, if_false]
      omega

theorem getCount_foldl_clicks (es : List Event) :
    ∀ (d : List (String × ℕ)) (nm : String),
      getCount (es.foldl (fun d e => if e.type_ ∈ CLICK_TYPES then bump d e.name else d) d) nm
        = getCount d nm + es.countP (fun e => isClick e && e.name == nm) := by
  induction es with
  | nil => intro d nm; simp
  | cons e es ih =>
    intro d nm
    rw [List.foldl_cons, List.countP_cons]
    by_cases hc : e.type_ ∈ CLICK_TYPES
    · rw [if_pos hc, ih, getCount_bump]
      have hck : isClick e = true := by simp [isClick, hc]
      rw [hck]
      by_cases h : nm = e.name
      · rw [if_pos h]
        have : (e.name == nm) = true := by simp [h]
        rw [this]
        simp
        omega
      · rw [if_neg h]
        have : (e.name == nm) = false := by simp; exact fun hh => h hh.symm
        rw [this]
        simp
    · rw [if_neg hc, ih]
      have hck : isClick e = false := by simp [isClick, hc]
      rw [hck]
      simp

theorem bump_keys (d : List (String × ℕ)) (k : String) :
    (bump d k).map Prod.fst
      = if k ∈ d.map Prod.fst then d.map Prod.fst else d.map Prod.fst ++ [k] := by
  induction d with
  | nil => simp [bump]
  | cons a rest ih =>
    obtain ⟨ak, av⟩ := a
    unfold bump
    by_cases hak : ak = k
    · rw [if_pos hak]
      have : k ∈ ((ak, av) :: rest).map Prod.fst := by simp [hak.symm]
      rw [if_pos this]
      simp
    · rw [if_neg hak]
      simp only [List.map_cons]
      rw [ih]
      by_cases hmem : k ∈ rest.map Prod.fst
      · rw [if_pos hmem, if_pos (by simp [hmem])]
      · rw [if_neg hmem,
          if_neg (by simp only [List.map_cons, List.mem_cons]; push_neg;
                     exact ⟨fun hh => hak hh.symm, hmem⟩)]
        simp

theorem bump_keys_nodup (d : List (String × ℕ)) (k : String)
    (h : (d.map Prod.fst).Nodup) : ((bump d k).map Prod.fst).Nodup := by
  rw [bump_keys]
  by_cases hmem : k ∈ d.map Prod.fst
  · rw [if_pos hmem]; exact h
  · rw [if_neg hmem]
    rw [List.nodup_append]
    refine ⟨h, List.nodup_singleton k, ?_⟩
    intro a ha hb
    simp only [List.mem_singleton] at hb
    subst hb
    exact hmem ha

theorem getCount_of_mem (d : List (String × ℕ)) (k : String) (v : ℕ)
    (hnd : (d.map Prod.fst).Nodup) (hmem : (k, v) ∈ d) : getCount d k = v := by
  induction d with
  | nil => cases hmem
  | cons a rest ih =>
    obtain ⟨ak, av⟩ := a
    rcases List.mem_cons.mp hmem with heq | hmem2
    · injection heq with h1 h2
      subst h1
      subst h2
      unfold getCount
      rw [if_pos rfl]
    · unfold getCount
      simp only [List.map_cons, List.nodup_cons] at hnd
      by_cases hak : ak = k
      · exfalso
        apply hnd.1
        rw [hak]
        exact List.mem_map.mpr ⟨(k, v), hmem2, rfl⟩
      · rw [if_neg hak]
        exact ih hnd.2 hmem2

theorem insertDesc_mem (x z : String × ℕ) :
    ∀ l : List (String × ℕ), z ∈ insertDesc x l ↔ z = x ∨ z ∈ l := by
  intro l
  induction l with
  | nil => simp [insertDesc]
  | cons y ys ih =>
    unfold insertDesc
    by_cases h : y.2 ≤ x.2
    · rw [if_pos h]
      simp
    · rw [if_neg h]
      simp only [List.mem_cons, ih]
      tauto

theorem insertDesc_pairwise (x : String × ℕ) (l : List (String × ℕ))
    (h : l.Pairwise (fun p q => q.2 ≤ p.2)) :
    (insertDesc x l).Pairwise (fun p q => q.2 ≤ p.2) := by
  induction l with
  | nil => simp [insertDesc]
  | cons y ys ih =>
    rw [List.pairwise_cons] at h
    unfold insertDesc
    by_cases hxy : y.2 ≤ x.2
    · rw [if_pos hxy]
      rw [List.pairwise_cons]
      constructor
      · intro z hz
        rcases List.mem_cons.mp hz with rfl | hz2
        · exact hxy
        · exact le_trans (h.1 z hz2) hxy
      · exact List.pairwise_cons.mpr h
    · rw [if_neg hxy]
      rw [List.pairwise_cons]
      constructor
      · intro z hz
        rcases (insertDesc_mem x z ys).mp hz with rfl | hz2
        · exact le_of_lt (lt_of_not_le hxy)
        · exact h.1 z hz2
      · exact ih h.2

theorem sortDesc_pairwise (l : List (String × ℕ)) :
    (sortDesc l).Pairwise (fun p q => q.2 ≤ p.2) := by
  induction l with
  | nil => simp [sortDesc]
  | cons x xs ih => exact insertDesc_pairwise x (sortDesc xs) ih

theorem sortDesc_mem (z : String × ℕ) :
    ∀ l : List (String × ℕ), z ∈ sortDesc l ↔ z ∈ l := by
  intro l
  induction l with
  | nil => simp [sortDesc]
  | cons x xs ih =>
    unfold sortDesc
    rw [insertDesc_mem, ih]
    simp [eq_comm]

theorem filter_insertDesc (c : ℕ) (x : String × ℕ) :
    ∀ l : List (String × ℕ),
      (insertDesc x l).filter (fun p => p.2 == c)
        = (if x.2 = c then [x] else []) ++ l.filter (fun p => p.2 == c) := by
  intro l
  induction l with
  | nil =>
    unfold insertDesc
    rw [List.filter_cons]
    by_cases hx : x.2 = c
    · simp [hx]
    · simp [hx]
  | cons y ys ih =>
    unfold insertDesc
    by_cases hxy : y.2 ≤ x.2
    · rw [if_pos hxy]
      by_cases hx : x.2 = c
      · simp [List.filter_cons, hx]
      · simp [List.filter_cons, hx]
    · rw [if_neg hxy]
      rw [List.filter_cons, List.filter_cons, ih]
      by_cases hy : y.2 = c
      · have hx : ¬ x.2 = c := by
          intro hc
          exact hxy (by omega)
        simp [hy, hx]
      · simp [hy]

theorem filter_sortDesc (c : ℕ) :
    ∀ l : List (String × ℕ),
      (sortDesc l).filter (fun p => p.2 == c) = l.filter (fun p => p.2 == c) := by
  intro l
  induction l with
  | nil => rfl
  | cons x xs ih =>
    unfold sortDesc
    rw [filter_insertDesc, ih, List.filter_cons]
    by_cases hx : x.2 = c
    · simp [hx]
    · simp [hx]

theorem clicksDict_nodup_keys (es : List Event) :
    ∀ d : List (String × ℕ), (d.map Prod.fst).Nodup →
      (((es.foldl (fun d e => if e.type_ ∈ CLICK_TYPES then bump d e.name else d) d)).map
          Prod.fst).Nodup := by
  induction es with
  | nil => intro d h; exact h
  | cons e es ih =>
    intro d h
    rw [List.foldl_cons]
    by_cases hc : e.type_ ∈ CLICK_TYPES
    · rw [if_pos hc]
      exact ih _ (bump_keys_nodup d e.name h)
    · rw [if_neg hc]
      exact ih _ h

theorem clicksDict_eq_namesFold (es : List Event) :
    ∀ d : List (String × ℕ),
      es.foldl (fun d e => if e.type_ ∈ CLICK_TYPES then bump d e.name else d) d
        = (clickNames es).foldl bump d := by
  induction es with
  | nil => intro d; rfl
  | cons e es ih =>
    intro d
    rw [List.foldl_cons]
    by_cases hc : e.type_ ∈ CLICK_TYPES
    · rw [if_pos hc]
      have hck : isClick e = true := by simp [isClick, hc]
      have hnames : clickNames (e :: es) = e.name :: clickNames es := by
        unfold clickNames
        rw [List.filter_cons, hck]
        simp
      rw [hnames, List.foldl_cons, ih]
    · rw [if_neg hc]
      have hck : isClick e = false := by simp [isClick, hc]
      have hnames : clickNames (e :: es) = clickNames es := by
        unfold clickNames
        rw [List.filter_cons, hck]
        simp
      rw [hnames, ih]

theorem keys_foldl_bump (ns : List String) :
    ∀ d : List (String × ℕ),
      (ns.foldl bump d).map Prod.fst
        = d.map Prod.fst
            ++ dedupFirst (ns.filter (fun x => decide (x ∉ d.map Prod.fst))) := by
  induction ns with
  | nil => intro d; simp [dedupFirst]
  | cons n ns ih =>
    intro d
    rw [List.foldl_cons]
    by_cases hn : n ∈ d.map Prod.fst
    · have hkeys : (bump d n).map Prod.fst = d.map Prod.fst := by
        rw [bump_keys, if_pos hn]
      rw [ih, hkeys]
      have hpred : (decide (n ∉ d.map Prod.fst)) = false := by simp [hn]
      have hfc : (n :: ns).filter (fun x => decide (x ∉ d.map Prod.fst))
          = ns.filter (fun x => decide (x ∉ d.map Prod.fst)) := by
        rw [List.filter_cons, hpred]
        simp
      rw [hfc]
    · have hkeys : (bump d n).map Prod.fst = d.map Prod.fst ++ [n] := by
        rw [bump_keys, if_neg hn]
      rw [ih, hkeys]
      have hpred : (decide (n ∉ d.map Prod.fst)) = true := by simpa using hn
      have hfc : (n :: ns).filter (fun x => decide (x ∉ d.map Prod.fst))
          = n :: ns.filter (fun x => decide (x ∉ d.map Prod.fst)) := by
        rw [List.filter_cons, hpred]
        simp
      rw [hfc]
      simp only [dedupFirst]
      rw [List.append_assoc, List.singleton_append]
      have hfeq : ns.filter (fun x => decide (x ∉ d.map Prod.fst ++ [n]))
          = (ns.filter (fun x => decide (x ∉ d.map Prod.fst))).filter
              (fun x => !(x == n)) := by
        rw [List.filter_filter]
        apply List.filter_congr
        intro x _
        by_cases h1 : x = n
        · subst h1
          simp [List.mem_append]
        · by_cases h2 : x ∈ d.map Prod.fst
          · simp [List.mem_append, h1, h2]
          · simp [List.mem_append, h1, h2]
      rw [hfeq]

theorem clicksDict_keys (es : List Event) :
    (clicksDict es).map Prod.fst = dedupFirst (clickNames es) := by
  unfold clicksDict
  rw [clicksDict_eq_namesFold es [], keys_foldl_bump]
  simp only [List.map_nil, List.nil_append]
  congr 1
  simp

/-- C7: `summarize` returns the per-type counts over all stored events; the top
subjects over the click event types, at most ten of them, sorted by descending
count under a stable sort whose ties keep the dict's first-encounter order (the
order subjects are first met scanning the event store); and totals equal to the
lengths of the event, intake and report stores. -/
theorem C7_analytics_summary (events : List Event) (intakes : List Intake)
    (reports : List Report) :
    (∀ ty : String,
      getCount (analytics_summary events intakes reports).counts ty
        = events.countP (fun e => e.type_ == ty))
    ∧ (analytics_summary events intakes reports).top_services
        = (sortDesc (clicksDict events)).take 10
    ∧ (analytics_summary events intakes reports).top_services.length ≤ 10
    ∧ (analytics_summary events intakes reports).top_services.Pairwise
        (fun p q => q.2 ≤ p.2)
    ∧ (∀ p ∈ (analytics_summary events intakes reports).top_services,
        p.2 = events.countP (fun e => isClick e && e.name == p.1))
    ∧ (∀ c : ℕ,
        (sortDesc (clicksDict events)).filter (fun p => p.2 == c)
          = (clicksDict events).filter (fun p => p.2 == c))
    ∧ (clicksDict events).map Prod.fst = dedupFirst (clickNames events)
    ∧ (analytics_summary events intakes reports).events = events.length
    ∧ (analytics_summary events intakes reports).intakes = intakes.length
    ∧ (analytics_summary events intakes reports).reports = reports.length := by
  refine ⟨?_, rfl, ?_, ?_, ?_, fun c => filter_sortDesc c (clicksDict events),
    clicksDict_keys events, rfl, rfl, rfl⟩
  · intro ty
    have h := getCount_foldl_types events [] ty
    rw [show getCount [] ty = 0 from rfl, Nat.zero_add] at h
    exact h
  · exact List.length_take_le _ _
  · exact List.Pairwise.sublist (List.take_sublist _ _) (sortDesc_pairwise (clicksDict events))
  · intro p hp
    have hp2 : p ∈ sortDesc (clicksDict events) := List.take_subset _ _ hp
    have hp3 : p ∈ clicksDict events := (sortDesc_mem p _).mp hp2
    obtain ⟨nm, v⟩ := p
    have hnd : ((clicksDict events).map Prod.fst).Nodup :=
      clicksDict_nodup_keys events [] (by simp)
    have hg : getCount (clicksDict events) nm = v := getCount_of_mem _ nm v hnd hp3
    have hf := getCount_foldl_clicks events [] nm
    rw [show getCount [] nm = 0 from rfl, Nat.zero_add] at hf
    exact hg.symm.trans hf

/-- C7 witness: the summary facts instantiated on a concrete event store. -/
theorem C7_analytics_witness :
    getCount (analytics_summary [evClickA, evSearch] [] []).counts "search"
        = [evClickA, evSearch].countP (fun e => e.type_ == "search")
    ∧ ("A", 1).2 = [evClickA, evSearch].countP (fun e => isClick e && e.name == ("A", 1).1) :=
  ⟨(C7_analytics_summary [evClickA, evSearch] [] []).1 "search",
   (C7_analytics_summary [evClickA, evSearch] [] []).2.2.2.2.1 ("A", 1) (by decide)⟩

theorem load_row_shape (row : List (String × String)) (it : Item)
    (h : load_row row = some it) :
    it.beds = (intField row "beds").getD 0
    ∧ it.name = stripStr (rowGet row "name" "")
    ∧ it.slug = slugify it.name := by
  unfold load_row at h
  cases h1 : intField row "beds" with
  | none => rw [h1] at h; simp at h
  | some beds =>
    rw [h1] at h
    cases h2 : intField row "age_min" with
    | none => rw [h2] at h; simp at h
    | some amin =>
      rw [h2] at h
      cases h3 : intField row "age_max" with
      | none => rw [h3] at h; simp at h
      | some amax =>
        rw [h3] at h
        cases h4 : floatField row "lat" with
        | none => rw [h4] at h; simp at h
        | some lat =>
          rw [h4] at h
          cases h5 : floatField row "lng" with
          | none => rw [h5] at h; simp at h
          | some lng =>
            rw [h5] at h
            simp only [] at h
            by_cases hn : stripStr (rowGet row "name" "") = ""
            · rw [if_pos hn] at h
              simp at h
            · rw [if_neg hn] at h
              simp only [Option.some.injEq] at h
              subst h
              refine ⟨?_, ?_, ?_⟩
              · simp
              · simp
              · simp

/-- C8: the specification's CSV row loads into a record with `walk_in = true`,
`beds = 3`, `languages = ["English","Spanish"]`; boolean-like text parses to a
boolean, pipe-delimited cells to string lists, empty numeric cells fall back to
zero, and the slug is derived from the name, collapsing to the default literal
"service" when the name yields no usable characters. -/
theorem C8_csv_row_normalization :
    ((load_row testRow).map Item.walk_in = some true
      ∧ (load_row testRow).map Item.beds = some 3
      ∧ (load_row testRow).map Item.languages = some ["English", "Spanish"]
      ∧ (load_row testRow).map Item.slug = some "test-shelter")
    ∧ (∀ s : String, _parse_bool s = true
        ↔ lowerStr (stripStr s) ∈ ["1", "true", "yes", "y", "t"])
    ∧ pipeList "English|Spanish" = ["English", "Spanish"]
    ∧ (∀ (row : List (String × String)) (it : Item),
        load_row row = some it → rowGet row "beds" "0" = "" → it.beds = 0)
    ∧ (∀ (row : List (String × String)) (it : Item),
        load_row row = some it → it.slug = slugify it.name)
    ∧ slugify "???" = "service" := by
  refine ⟨by decide, ?_, by decide, ?_, ?_, by decide⟩
  · intro s
    simp only [_parse_bool, Bool.or_eq_true, beq_iff_eq, List.mem_cons,
      List.not_mem_nil, or_false]
    tauto
  · intro row it hl hbe
    have h := (load_row_shape row it hl).1
    rw [h]
    unfold intField
    rw [hbe]
    rfl
  · intro row it hl
    exact (load_row_shape row it hl).2.2

/-- C8 witness: the row-level facts instantiated on a concrete row whose beds
cell is empty. -/
theorem C8_csv_witness : itX.beds = 0 ∧ itX.slug = slugify itX.name :=
  ⟨C8_csv_row_normalization.2.2.2.1 rowX itX (by decide) (by decide),
   C8_csv_row_normalization.2.2.2.2.1 rowX itX (by decide)⟩

